import Mathlib

/-!
Verification of the git-plumbing implementation (codecrafters git in Go).

Bytes are modelled as `Nat` values below 256, byte strings as `List Nat`.
Machine integers are modelled as `Nat`/`Int` with explicit `% 2 ^ 32`
where 32-bit overflow matters (SHA-1).
-/

set_option maxRecDepth 100000

/-- ASCII bytes of a Lean string literal; used to transcribe the byte-string
literals appearing in the Go source. -/
def s2b (s : String) : List Nat := s.data.map Char.toNat

/-! ### SHA-1 (crypto/sha1), modelled bit-for-bit over Nat with mod 2^32 -/

/-- 32-bit left rotation. The argument is assumed below 2^32. -/
def rotl32 (n x : Nat) : Nat :=
  ((x <<< n) % 4294967296) ||| (x >>> (32 - n))

/-- SHA-1 round function f_t. -/
def sha1F (t b c d : Nat) : Nat :=
  if t < 20 then (b &&& c) ||| ((b ^^^ 4294967295) &&& d)
  else if t < 40 then b ^^^ c ^^^ d
  else if t < 60 then (b &&& c) ||| (b &&& d) ||| (c &&& d)
  else b ^^^ c ^^^ d

/-- SHA-1 round constant K_t. -/
def sha1K (t : Nat) : Nat :=
  if t < 20 then 0x5A827999
  else if t < 40 then 0x6ED9EBA1
  else if t < 60 then 0x8F1BBCDC
  else 0xCA62C1D6

/-- Extend the 16 message words of a block to the 80-word schedule. -/
def sha1Schedule (ws : Array Nat) : Array Nat :=
  (List.range 64).foldl
    (fun a _ =>
      let n := a.size
      a.push (rotl32 1 ((a.getD (n - 3) 0) ^^^ (a.getD (n - 8) 0) ^^^
        (a.getD (n - 14) 0) ^^^ (a.getD (n - 16) 0))))
    ws

/-- One SHA-1 compression step over a 16-word block. -/
def sha1Compress (h : Nat × Nat × Nat × Nat × Nat) (block : List Nat) :
    Nat × Nat × Nat × Nat × Nat :=
  let w := sha1Schedule block.toArray
  let st := (List.range 80).foldl
    (fun (st : Nat × Nat × Nat × Nat × Nat) t =>
      let a := st.1
      let b := st.2.1
      let c := st.2.2.1
      let d := st.2.2.2.1
      let e := st.2.2.2.2
      let tmp := (rotl32 5 a + sha1F t b c d + e + sha1K t + w.getD t 0) % 4294967296
      (tmp, a, rotl32 30 b, c, d)) h
  ((h.1 + st.1) % 4294967296,
   (h.2.1 + st.2.1) % 4294967296,
   (h.2.2.1 + st.2.2.1) % 4294967296,
   (h.2.2.2.1 + st.2.2.2.1) % 4294967296,
   (h.2.2.2.2 + st.2.2.2.2) % 4294967296)

/-- Big-endian bytes → 32-bit words (groups of 4). -/
def bytesToWords : List Nat → List Nat
  | b0 :: b1 :: b2 :: b3 :: rest =>
      (b0 <<< 24 ||| b1 <<< 16 ||| b2 <<< 8 ||| b3) :: bytesToWords rest
  | _ => []

/-- Words → blocks of 16 words. -/
def wordsToBlocks : List Nat → List (List Nat)
  | w0 :: w1 :: w2 :: w3 :: w4 :: w5 :: w6 :: w7 ::
    w8 :: w9 :: w10 :: w11 :: w12 :: w13 :: w14 :: w15 :: rest =>
      [w0, w1, w2, w3, w4, w5, w6, w7, w8, w9, w10, w11, w12, w13, w14, w15] ::
        wordsToBlocks rest
  | _ => []

/-- A 32-bit word as 4 big-endian bytes. -/
def wordBE4 (w : Nat) : List Nat :=
  [(w >>> 24) % 256, (w >>> 16) % 256, (w >>> 8) % 256, w % 256]

/-- A 64-bit value as 8 big-endian bytes (the SHA-1 length field). -/
def wordBE8 (w : Nat) : List Nat :=
  [(w >>> 56) % 256, (w >>> 48) % 256, (w >>> 40) % 256, (w >>> 32) % 256,
   (w >>> 24) % 256, (w >>> 16) % 256, (w >>> 8) % 256, w % 256]

/-- SHA-1 of a byte sequence: 20-byte digest. -/
def sha1 (msg : List Nat) : List Nat :=
  let padded := msg ++ [128] ++
    List.replicate ((119 - msg.length % 64) % 64) 0 ++ wordBE8 (8 * msg.length)
  let blocks := wordsToBlocks (bytesToWords padded)
  let st := blocks.foldl sha1Compress
    (0x67452301, 0xEFCDAB89, 0x98BADCFE, 0x10325476, 0xC3D2E1F0)
  wordBE4 st.1 ++ wordBE4 st.2.1 ++ wordBE4 st.2.2.1 ++
    wordBE4 st.2.2.2.1 ++ wordBE4 st.2.2.2.2

/-! ### Decimal and hex rendering (fmt verbs of the Go source) -/

/-- Little-endian decimal digits, with fuel (fuel n is always enough). -/
def decDigitsAux : Nat → Nat → List Nat
  | 0, _ => []
  | _ + 1, 0 => []
  | fuel + 1, n + 1 => (n + 1) % 10 :: decDigitsAux fuel ((n + 1) / 10)

/-- ASCII decimal representation of a Nat, as produced by the fmt verb
for integers: no leading zeros, a single 0 digit for zero. -/
def decAscii (n : Nat) : List Nat :=
  if n = 0 then [48] else ((decDigitsAux n n).reverse).map (48 + ·)

/-- Lowercase hex digit character of a nibble. -/
def hexChar (d : Nat) : Nat := if d < 10 then 48 + d else 87 + d

/-- Lowercase hex of a byte sequence, two digits per byte, as produced by
the x fmt verb on a byte slice (the printed object identifiers). -/
def hexOfBytes : List Nat → List Nat
  | [] => []
  | b :: rest => hexChar (b / 16 % 16) :: hexChar (b % 16) :: hexOfBytes rest

/-! ### Hasher and framer: git/object.go prepareContent, objects.go HashObject -/

/-- The object kinds that the program frames and hashes. -/
inductive GoObjKind where
  | blob
  | tree
  | commit
  deriving DecidableEq

/-- The kind tag bytes written in a framed object header. -/
def kindTag : GoObjKind → List Nat
  | .blob => s2b "blob"
  | .tree => s2b "tree"
  | .commit => s2b "commit"

/-- git/object.go prepareContent: builds the framed form
kind, space, decimal length, NUL, raw content, and its SHA-1.
Returns (sha1 digest, framed bytes). -/
def prepareContent (objectType : List Nat) (content : List Nat) :
    List Nat × List Nat :=
  let objContent := objectType ++ [32] ++ decAscii content.length ++ [0] ++ content
  (sha1 objContent, objContent)

/-- cmd/mygit/objects.go HashObject: same framing computed from a typed
object (kind and content). -/
def HashObject (kind : GoObjKind) (content : List Nat) : List Nat × List Nat :=
  prepareContent (kindTag kind) content

/-! ### Packet-line framing: clone.go parsePacketLine / serializePackeLine -/

/-- Little-endian hex digits of a Nat, computed with fuel (fuel n suffices). -/
def hexDigitsAux : Nat → Nat → List Nat
  | 0, _ => []
  | _ + 1, 0 => []
  | fuel + 1, n + 1 => (n + 1) % 16 :: hexDigitsAux fuel ((n + 1) / 16)

/-- Little-endian hex digits of a Nat (empty for zero). -/
def hexDigitsLE (n : Nat) : List Nat := hexDigitsAux n n

/-- The x fmt verb with width 4 and zero padding (the 04x verb): lowercase
hex digits of n, left padded with 0 characters to at least 4 characters. -/
def hex04 (n : Nat) : List Nat :=
  let ds := (hexDigitsLE n).reverse.map hexChar
  List.replicate (4 - ds.length) 48 ++ ds

/-- clone.go serializePackeLine: 4 zero-padded hex characters of
payload length + 4, then the payload. -/
def serializePackeLine (line : List Nat) : List Nat :=
  hex04 (line.length + 4) ++ line

/-- Value of a single ASCII hex digit character, as accepted by
strconv.ParseInt with base 16. -/
def parseHexDigit (c : Nat) : Option Nat :=
  if 48 ≤ c ∧ c ≤ 57 then some (c - 48)
  else if 97 ≤ c ∧ c ≤ 102 then some (c - 87)
  else if 65 ≤ c ∧ c ≤ 70 then some (c - 55)
  else none

/-- Digit-accumulation loop of strconv.ParseInt (base 16); none on any
non-hex character. -/
def parseHexNatAux (acc : Nat) : List Nat → Option Nat
  | [] => some acc
  | c :: rest =>
    match parseHexDigit c with
    | none => none
    | some d => parseHexNatAux (16 * acc + d) rest

/-- Unsigned part of strconv.ParseInt base 16: at least one digit, all hex.
Overflow of int64 cannot occur on the 4-character inputs the source
feeds it, so it is not modelled. -/
def parseHexNat (s : List Nat) : Option Nat :=
  match s with
  | [] => none
  | _ :: _ => parseHexNatAux 0 s

/-- strconv.ParseInt(s, 16, 64): an optional sign followed by hex digits. -/
def parseHexInt (s : List Nat) : Option Int :=
  match s with
  | [] => none
  | c :: rest =>
    if c = 45 then (parseHexNat rest).map (fun v => -(v : Int))
    else if c = 43 then (parseHexNat rest).map (fun v => (v : Int))
    else (parseHexNat (c :: rest)).map (fun v => (v : Int))

/-- Result of one io.Reader Read call of k bytes over a byte-list source:
the k-byte buffer (unfilled positions keep their zero value), the remaining
source, the count read, and whether EOF was returned (only when no byte
was available and at least one was requested). -/
structure ReadRes where
  buf : List Nat
  rest : List Nat
  n : Nat
  eof : Bool
  deriving DecidableEq

/-- One Read call into a fresh zeroed buffer of size k. -/
def goReadN (k : Nat) (src : List Nat) : ReadRes :=
  if src.isEmpty ∧ 0 < k then ⟨List.replicate k 0, src, 0, true⟩
  else ⟨src.take k ++ List.replicate (k - src.length) 0, src.drop k,
        min k src.length, false⟩

/-- Outcome of clone.go parsePacketLine. -/
inductive PktResult where
  /-- A payload byte slice was returned with a nil error. -/
  | payload (line : List Nat)
  /-- The length field was 0000: the function returns (nil, nil). -/
  | flush
  /-- A non-nil error was returned. -/
  | fail
  /-- A negative slice size was requested: the Go runtime panics. -/
  | panic
  deriving DecidableEq

/-- clone.go parsePacketLine: read 4 bytes, hex-parse them as the frame
length, treat 0 as a flush, then read length - 4 payload bytes and check
the count. -/
def parsePacketLine (src : List Nat) : PktResult :=
  let r := goReadN 4 src
  if r.eof then .fail
  else
    match parseHexInt r.buf with
    | none => .fail
    | some len =>
      if len = 0 then .flush
      else if len < 4 then .panic
      else
        let m := (len - 4).toNat
        let r2 := goReadN m r.rest
        if r2.eof then .fail
        else if r2.n ≠ m then .fail
        else .payload r2.buf

/-! ### Ref-delta application: clone.go parseRefDelta (instruction loop) -/

/-- binary.ReadUvarint: little-endian groups of 7 bits, MSB continuation;
none models the EOF error (overflow after 10 bytes is not reachable on the
inputs considered and is not modelled). -/
def readUvarint : List Nat → Option (Nat × List Nat)
  | [] => none
  | b :: rest =>
    if b < 128 then some (b, rest)
    else
      match readUvarint rest with
      | none => none
      | some (v, r) => some ((b &&& 127) ||| (v <<< 7), r)

/-- One conditional ReadByte of the copy-instruction decoder: if cond, read
a byte and OR it into the accumulator at bit position sh; none is the
ReadByte EOF error. -/
def readMaskByte (cond : Bool) (sh : Nat) (st : Nat × List Nat) :
    Option (Nat × List Nat) :=
  if cond then
    match st.2 with
    | [] => none
    | x :: r => some (st.1 ||| (x <<< sh), r)
  else some st

/-- The offset/size byte reads of a copy instruction with opcode byte b:
bits 0..3 select extra offset bytes, bits 4..6 extra size bytes, each ORed
in at successive 8-bit positions. Returns (offset, size, remaining data). -/
def readCopyArgs (b : Nat) (data : List Nat) : Option (Nat × Nat × List Nat) :=
  match readMaskByte (b &&& 1 ≠ 0) 0 (0, data) with
  | none => none
  | some s0 =>
    match readMaskByte (b &&& 2 ≠ 0) 8 s0 with
    | none => none
    | some s1 =>
      match readMaskByte (b &&& 4 ≠ 0) 16 s1 with
      | none => none
      | some s2 =>
        match readMaskByte (b &&& 8 ≠ 0) 24 s2 with
        | none => none
        | some s3 =>
          match readMaskByte (b &&& 16 ≠ 0) 0 (0, s3.2) with
          | none => none
          | some t0 =>
            match readMaskByte (b &&& 32 ≠ 0) 8 t0 with
            | none => none
            | some t1 =>
              match readMaskByte (b &&& 64 ≠ 0) 16 t1 with
              | none => none
              | some t2 => some (s3.1, t2.1, t2.2)

/-- Outcome of the delta application. -/
inductive DeltaRes where
  /-- Reconstructed target bytes. -/
  | ok (buf : List Nat)
  /-- A non-nil error was returned. -/
  | err
  /-- The base slice bounds were exceeded: the Go runtime panics. -/
  | panic
  deriving DecidableEq

theorem readMaskByte_length {c : Bool} {sh : Nat} {st st2 : Nat × List Nat}
    (h : readMaskByte c sh st = some st2) : st2.2.length ≤ st.2.length := by
  unfold readMaskByte at h
  split at h
  · match hd : st.2 with
    | [] => rw [hd] at h; exact absurd h (by simp)
    | x :: r =>
      rw [hd] at h
      cases h
      simp [hd]
  · cases h
    exact Nat.le_refl _

theorem readCopyArgs_length {b : Nat} {data : List Nat}
    {o s : Nat} {d2 : List Nat}
    (h : readCopyArgs b data = some (o, s, d2)) : d2.length ≤ data.length := by
  unfold readCopyArgs at h
  split at h
  · exact absurd h (by simp)
  case _ s0 e0 =>
    split at h
    · exact absurd h (by simp)
    case _ s1 e1 =>
      split at h
      · exact absurd h (by simp)
      case _ s2 e2 =>
        split at h
        · exact absurd h (by simp)
        case _ s3 e3 =>
          split at h
          · exact absurd h (by simp)
          case _ t0 e4 =>
            split at h
            · exact absurd h (by simp)
            case _ t1 e5 =>
              split at h
              · exact absurd h (by simp)
              case _ t2 e6 =>
                cases h
                calc t2.2.length ≤ t1.2.length := readMaskByte_length e6
                  _ ≤ t0.2.length := readMaskByte_length e5
                  _ ≤ s3.2.length := by
                        have := readMaskByte_length e4
                        exact this
                  _ ≤ s2.2.length := readMaskByte_length e3
                  _ ≤ s1.2.length := readMaskByte_length e2
                  _ ≤ s0.2.length := readMaskByte_length e1
                  _ ≤ data.length := readMaskByte_length e0

/-- The instruction loop of clone.go parseRefDelta: repeatedly read an
opcode byte until EOF; high bit set is a copy from the base, otherwise a
literal add of the low 7 bits many bytes (including zero for opcode 0). -/
def deltaLoop (base : List Nat) (buf : List Nat) (data : List Nat) : DeltaRes :=
  match data with
  | [] => .ok buf
  | b :: rest =>
    if b &&& 128 ≠ 0 then
      match e : readCopyArgs b rest with
      | none => .err
      | some (offset, size, rest2) =>
        if offset + size ≤ base.length then
          deltaLoop base (buf ++ (base.drop offset).take size) rest2
        else .panic
    else
      let n := b &&& 127
      if rest.length < n then .err
      else deltaLoop base (buf ++ rest.take n) (rest.drop n)
termination_by data.length
decreasing_by
  · have := readCopyArgs_length e
    simp only [List.length_cons]
    omega
  · simp only [List.length_cons, List.length_drop]
    omega

/-- clone.go parseRefDelta after the base lookup and decompression: the two
size uvarints, their checks against the base and the reconstruction, and
the instruction loop. The 20-byte base id read, the store lookup and the
zlib stream are handled by the caller and are abstracted into the two
arguments. -/
def parseRefDeltaData (baseContent : List Nat) (deltaData : List Nat) : DeltaRes :=
  match readUvarint deltaData with
  | none => .err
  | some (srcSize, d1) =>
    if srcSize ≠ baseContent.length then .err
    else
      match readUvarint d1 with
      | none => .err
      | some (dstSize, d2) =>
        match deltaLoop baseContent [] d2 with
        | .ok buf => if dstSize ≠ buf.length then .err else .ok buf
        | r => r

/-! ### Tree parsing: objects.go toType and the Tree Format loop -/

/-- objects.go toType: maps a raw mode field to the printed mode string and
the object kind; unknown modes yield two empty strings. -/
def toType (mode : List Nat) : List Nat × List Nat :=
  if (s2b "40000").isPrefixOf mode then (s2b "040000", s2b "tree")
  else if (s2b "100644").isPrefixOf mode then (s2b "100644", s2b "blob")
  else if (s2b "100755").isPrefixOf mode then (s2b "100755", s2b "blob")
  else if (s2b "120000").isPrefixOf mode then (s2b "120000", s2b "blob")
  else ([], [])

/-- One parsed line of the Tree Format loop: mode, kind, hex id and name,
with the zero values (empty strings) the Go struct fields start from. -/
structure TreeEntryRec where
  mode : List Nat
  kind : List Nat
  hashHex : List Nat
  name : List Nat
  deriving DecidableEq

/-- The space scan of the Format loop, acting on the suffix of the content
from the cursor (content[start:]): toType of the bytes before the first
space and the suffix after it; when no space occurs the mode and kind keep
their zero values (empty strings) and the cursor stays in place, exactly as
the Go loop leaves start untouched when it runs off the end. -/
def spaceScan (rest : List Nat) : (List Nat × List Nat) × List Nat :=
  match rest.findIdx? (· = 32) with
  | some e => (toType (rest.take e), rest.drop (e + 1))
  | none => (([], []), rest)

/-- The NUL scan of the Format loop on the suffix after the mode: the name
bytes before the first NUL and the suffix after it; no NUL leaves the name
empty and the cursor in place. -/
def nulScan (r1 : List Nat) : List Nat × List Nat :=
  match r1.findIdx? (· = 0) with
  | some e => (r1.take e, r1.drop (e + 1))
  | none => ([], r1)

theorem spaceScan_length (rest : List Nat) :
    (spaceScan rest).2.length ≤ rest.length := by
  unfold spaceScan
  split
  · simp [List.length_drop]
  · exact Nat.le_refl _

theorem nulScan_length (r1 : List Nat) :
    (nulScan r1).2.length ≤ r1.length := by
  unfold nulScan
  split
  · simp [List.length_drop]
  · exact Nat.le_refl _

/-- The entry-parsing loop of Tree.Format in objects.go over the suffix of
the content from the cursor: while bytes remain, scan for a space (mode and
kind through toType), scan for a NUL (name), then slice 20 raw id bytes.
none models the out-of-range slice panic when fewer than 20 bytes remain at
the id position. -/
def treeFormatLoop (rest : List Nat) : Option (List TreeEntryRec) :=
  if h0 : rest.length = 0 then some []
  else
    let p1 := spaceScan rest
    let p2 := nulScan p1.2
    if p2.2.length < 20 then none
    else
      match treeFormatLoop (p2.2.drop 20) with
      | none => none
      | some more =>
          some (⟨p1.1.1, p1.1.2, hexOfBytes (p2.2.take 20), p2.1⟩ :: more)
termination_by rest.length
decreasing_by
  have h1 := spaceScan_length rest
  have h2 := nulScan_length (spaceScan rest).2
  simp only [List.length_drop]
  omega

/-- Tree.Format entry parsing over the whole content (Format itself then
renders the entries; mode validation never produces an error). -/
def treeFormatLines (content : List Nat) : Option (List TreeEntryRec) :=
  treeFormatLoop content

/-! ### Checkout: clone.go ParseTreeFromHash -/

/-- A filesystem effect of the checkout walk. Paths are lists of
components, mirroring path.Join of the base path and the entry name. -/
inductive FsAction where
  /-- os.Mkdir of the directory (pre-existence tolerated). -/
  | mkdir (p : List (List Nat))
  /-- os.WriteFile of the given bytes with the given permission bits. -/
  | writeFile (p : List (List Nat)) (bytes : List Nat) (perm : Nat)
  deriving DecidableEq

/-- Outcome of the checkout walk. -/
inductive CoRes where
  /-- The ordered filesystem effects of a successful walk. -/
  | ok (acts : List FsAction)
  /-- A non-nil error was returned (object lookup failure). -/
  | err
  /-- A Go runtime panic: short slice, missing NUL, or the explicit
  panic on an unknown entry kind. -/
  | panic
  /-- Recursion fuel ran out (never hit on finite acyclic stores). -/
  | stuck
  deriving DecidableEq

/-- Sequencing of a prefix of effects onto the outcome of the rest. -/
def CoRes.withActs (acts : List FsAction) : CoRes → CoRes
  | .ok rest => .ok (acts ++ rest)
  | r => r

mutual

/-- clone.go ParseTreeFromHash: look up the tree object by hex id and walk
its entries. The object store (ReadGitObject, whose clone-era definition is
not part of the sources; modelled from the spec: get(id) returns the raw
bytes after the header NUL) is the lookup function argument. An explicit
fuel bounds the recursion depth, which the Go code leaves unbounded. -/
def ParseTreeFromHash (fuel : Nat) (store : List Nat → Option (List Nat))
    (basepath : List (List Nat)) (hash : List Nat) : CoRes :=
  match fuel with
  | 0 => .stuck
  | fuel + 1 =>
    match store hash with
    | none => .err
    | some data => checkoutEntries fuel store basepath data
termination_by (fuel, 0)

/-- The entry loop of ParseTreeFromHash: toType on the first 6 bytes, skip
7 bytes for a blob mode and 6 otherwise, take the name up to the NUL, take
20 raw id bytes, then mkdir+recurse for a subtree, or fetch the blob and
write the file dropping its final byte with fixed permission 0o644 = 420;
an unknown kind reaches the explicit panic of the default branch. -/
def checkoutEntries (fuel : Nat) (store : List Nat → Option (List Nat))
    (basepath : List (List Nat)) (data : List Nat) : CoRes :=
  if h0 : data.length = 0 then .ok []
  else if h6 : data.length < 6 then .panic
  else
    let kind := (toType (data.take 6)).2
    let skip := if kind = s2b "blob" then 7 else 6
    if hsk : data.length < skip then .panic
    else
      match (data.drop skip).findIdx? (· = 0) with
      | none => .panic
      | some idx =>
        let nm := (data.drop skip).take idx
        let filename := basepath ++ [nm]
        let d2 := data.drop (skip + (idx + 1))
        if h20 : d2.length < 20 then .panic
        else
          let fileHash := hexOfBytes (d2.take 20)
          if kind = s2b "tree" then
            match ParseTreeFromHash fuel store filename fileHash with
            | .ok acts =>
              (checkoutEntries fuel store basepath
                  (data.drop (skip + (idx + 1) + 20))).withActs
                (.mkdir filename :: acts)
            | r => r
          else if kind = s2b "blob" then
            match store fileHash with
            | none => .err
            | some blobData =>
              (checkoutEntries fuel store basepath
                  (data.drop (skip + (idx + 1) + 20))).withActs
                [.writeFile filename (blobData.take (blobData.length - 1)) 420]
          else .panic
termination_by (fuel, data.length + 1)
decreasing_by
  all_goals first
    | exact Prod.Lex.left _ _ (Nat.lt_succ_self _)
    | (apply Prod.Lex.right
       try simp only [List.length_drop]
       omega)

end


/-! ### Tree builder: objects.go BuildTreeFromDir -/

/-- An abstract directory entry for the walk of BuildTreeFromDir: a regular
file (with its executable-permission bit and bytes) or a subdirectory.
Symbolic links and other kinds do not occur in the inputs considered. -/
inductive FSEntry where
  | file (name : List Nat) (exec : Bool) (content : List Nat)
  | dir (name : List Nat) (children : List FSEntry)

/-- The name of a directory entry. -/
def FSEntry.name : FSEntry → List Nat
  | .file n _ _ => n
  | .dir n _ => n

/-- Byte-lexicographic strict order on names, the order of Go string
comparison. -/
def lexLtBytes : List Nat → List Nat → Bool
  | [], [] => false
  | [], _ :: _ => true
  | _ :: _, [] => false
  | a :: as, b :: bs => if a < b then true else if b < a then false else lexLtBytes as bs

/-- Insertion step of the sort by name that models the sorted order in
which os.ReadDir returns directory entries. -/
def insertByName (p : List Nat × List Nat) :
    List (List Nat × List Nat) → List (List Nat × List Nat)
  | [] => [p]
  | q :: qs => if lexLtBytes q.1 p.1 then q :: insertByName p qs else p :: q :: qs

/-- Sort records by name (os.ReadDir returns entries sorted by filename;
the per-entry record depends only on the entry, so mapping the sorted
listing equals sorting the mapped records). -/
def sortByName : List (List Nat × List Nat) → List (List Nat × List Nat)
  | [] => []
  | p :: ps => insertByName p (sortByName ps)

mutual

/-- The bytes BuildTreeFromDir appends for one directory entry: the mode
prefix chosen from the permission bits (any execute bit gives 100755, else
100644; a subdirectory gives 40000), the name, a NUL and the 20-byte id of
the blob or subtree object. -/
def entryLine : FSEntry → List Nat
  | .file n ex c =>
      (if ex then s2b "100755 " else s2b "100644 ") ++ n ++ [0] ++
        (prepareContent (s2b "blob") c).1
  | .dir n cs =>
      s2b "40000 " ++ n ++ [0] ++
        (prepareContent (s2b "tree") (treeContent cs)).1
termination_by e => (sizeOf e, 0)
decreasing_by
  apply Prod.Lex.left
  simp
  all_goals omega

/-- The (name, appended bytes) records of a directory listing, one per
entry, skipping the name .git exactly as the loop does. -/
def entryRecords : List FSEntry → List (List Nat × List Nat)
  | [] => []
  | e :: es =>
    if e.name = s2b ".git" then entryRecords es
    else (e.name, entryLine e) :: entryRecords es
termination_by es => (sizeOf es, 0)
decreasing_by
  all_goals (apply Prod.Lex.left; simp; all_goals omega)

/-- The raw content of the tree object BuildTreeFromDir emits for a
directory: the per-entry byte runs concatenated in the order os.ReadDir
yields the entries, which is plain byte-lexicographic order of names. -/
def treeContent (cs : List FSEntry) : List Nat :=
  ((sortByName (entryRecords cs)).map Prod.snd).flatten
termination_by (sizeOf cs, 1)
decreasing_by
  exact Prod.Lex.right _ (Nat.lt_succ_self _)

end

/-- The names of the tree entries, in the order BuildTreeFromDir emits
them. -/
def emittedTreeNames (cs : List FSEntry) : List (List Nat) :=
  (sortByName (entryRecords cs)).map Prod.fst

/-! ### Commit serialization: main.go Commit.Content -/

/-- The Commit struct of cmd/mygit. The timestamp field abstracts the
rendered form of the Unix seconds and the -0700 style zone offset, whose
value depends on the wall clock and local zone. -/
structure CommitObj where
  timestampBytes : List Nat
  parent : Option (List Nat)
  tree : List Nat
  author : List Nat
  email : List Nat
  message : Option (List Nat)

/-- main.go Commit.Content: tree header, optional parent header, author
and committer lines (the committer line is followed by the blank line),
the message if present, and an unconditional final newline. -/
def CommitObj.ContentBytes (c : CommitObj) : List Nat :=
  s2b "tree " ++ c.tree ++ [10] ++
  (match c.parent with
   | some p => s2b "parent " ++ p ++ [10]
   | none => []) ++
  s2b "author " ++ c.author ++ s2b " <" ++ c.email ++ s2b "> " ++
    c.timestampBytes ++ [10] ++
  s2b "committer " ++ c.author ++ s2b " <" ++ c.email ++ s2b "> " ++
    c.timestampBytes ++ [10, 10] ++
  (match c.message with
   | some m => m
   | none => []) ++
  [10]

/-! ### hash-object command: cmds.go HandlerHashObject -/

/-- The loose object store, as a list of (40-hex id, framed bytes) pairs.
The zlib compression applied on disk is injective and is abstracted away:
the store is modelled at the framed-bytes level. -/
abbrev StoreT := List (List Nat × List Nat)

/-- Modelled from the spec: WriteContent(gitObj) of the clone-era
objects.go is not among the sources (only its callers are). Following
section 4.B, put(id, framed) persists the framed bytes at the
content-address of the object; writing an existing id again overwrites it
with identical bytes. Returns the updated store. -/
def storePut (store : StoreT) (idHex : List Nat) (framed : List Nat) : StoreT :=
  match store with
  | [] => [(idHex, framed)]
  | p :: ps => if p.1 = idHex then (idHex, framed) :: ps else p :: storePut ps idHex framed

/-- Outcome of HandlerHashObject. -/
inductive HOResult where
  /-- An index out of range: the Go runtime panics. -/
  | panic
  /-- A non-nil error was returned (mismatched command, invalid arguments,
  or a file-open failure); nothing is printed and the store is unchanged. -/
  | err
  /-- Normal return: the bytes printed to stdout and the final store. -/
  | ok (stdout : List Nat) (store : StoreT)
  deriving DecidableEq

/-- cmds.go HandlerHashObject: check the command name, require 1 or 2
arguments, treat a first argument -w as the write flag and move the path
index to 1, read the file as a blob, hash it (and with -w also write it
through WriteContent), then print the 40 hex digits and a newline. The
filesystem is the fileBytes lookup. -/
def HandlerHashObject (name : String) (args : List String)
    (fileBytes : String → Option (List Nat)) (store : StoreT) : HOResult :=
  if name ≠ "hash-object" then .err
  else if args.length < 1 ∨ args.length > 2 then .err
  else
    let writeToFile := args.headD "" = "-w"
    let objIndex := if writeToFile then 1 else 0
    match args.get? objIndex with
    | none => .panic
    | some path =>
      match fileBytes path with
      | none => .err
      | some content =>
        let hf := HashObject .blob content
        if writeToFile then
          .ok (hexOfBytes hf.1 ++ [10]) (storePut store (hexOfBytes hf.1) hf.2)
        else
          .ok (hexOfBytes hf.1 ++ [10]) store

/-- Value of a little-endian hex digit list. -/
def valHexLE (l : List Nat) : Nat := l.foldr (fun d acc => 16 * acc + d) 0

/-! ### Helper lemmas -/

theorem hexDigitsAux_congr (f1 : Nat) : ∀ (f2 n : Nat), n ≤ f1 → n ≤ f2 →
    hexDigitsAux f1 n = hexDigitsAux f2 n := by
  induction f1 with
  | zero =>
    intro f2 n h1 _
    have hz : n = 0 := Nat.le_zero.mp h1
    subst hz
    cases f2 <;> rfl
  | succ f1 ih =>
    intro f2 n h1 h2
    cases n with
    | zero => cases f2 <;> rfl
    | succ m =>
      cases f2 with
      | zero => omega
      | succ f2 =>
        simp only [hexDigitsAux]
        congr 1
        have hd : (m + 1) / 16 < m + 1 :=
          Nat.div_lt_self (Nat.succ_pos m) (by norm_num)
        exact ih f2 ((m + 1) / 16) (by omega) (by omega)

theorem hexDigitsLE_spec (n : Nat) :
    hexDigitsLE n = if n = 0 then [] else n % 16 :: hexDigitsLE (n / 16) := by
  cases n with
  | zero => rfl
  | succ m =>
    simp only [hexDigitsLE, hexDigitsAux, Nat.succ_ne_zero, if_false]
    congr 1
    have hd : (m + 1) / 16 < m + 1 :=
      Nat.div_lt_self (Nat.succ_pos m) (by norm_num)
    exact hexDigitsAux_congr m ((m + 1) / 16) ((m + 1) / 16) (by omega) (le_refl _)

theorem valHexLE_hexDigitsLE (n : Nat) : valHexLE (hexDigitsLE n) = n := by
  induction n using Nat.strong_induction_on with
  | _ n ih =>
    rw [hexDigitsLE_spec]
    by_cases h : n = 0
    · simp [h, valHexLE]
    · have hlt : n / 16 < n := Nat.div_lt_self (Nat.pos_of_ne_zero h) (by norm_num)
      simp only [h, if_false, valHexLE, List.foldr_cons]
      have := ih (n / 16) hlt
      unfold valHexLE at this
      rw [this]
      omega

theorem hexDigitsLE_length_le (k : Nat) : ∀ n : Nat, n < 16 ^ k →
    (hexDigitsLE n).length ≤ k := by
  induction k with
  | zero =>
    intro n h
    have hz : n = 0 := by simpa using h
    subst hz
    simp [hexDigitsLE, hexDigitsAux]
  | succ k ih =>
    intro n h
    rw [hexDigitsLE_spec]
    by_cases h0 : n = 0
    · simp [h0]
    · simp only [h0, if_false, List.length_cons]
      have hdiv : n / 16 < 16 ^ k := by
        apply Nat.div_lt_of_lt_mul
        rw [pow_succ'] at h
        exact h
      have := ih _ hdiv
      omega

theorem hexDigitsLE_lt (n : Nat) : ∀ d ∈ hexDigitsLE n, d < 16 := by
  induction n using Nat.strong_induction_on with
  | _ n ih =>
    rw [hexDigitsLE_spec]
    by_cases h : n = 0
    · simp [h]
    · simp only [h, if_false, List.mem_cons]
      rintro d (rfl | hd)
      · exact Nat.mod_lt _ (by norm_num)
      · exact ih (n / 16) (Nat.div_lt_self (Nat.pos_of_ne_zero h) (by norm_num)) d hd

theorem parseHexDigit_hexChar : ∀ d < 16, parseHexDigit (hexChar d) = some d := by
  decide

theorem hexChar_ge : ∀ d < 16, 48 ≤ hexChar d := by
  decide

theorem parseHexNatAux_replicate (k : Nat) (l : List Nat) :
    parseHexNatAux 0 (List.replicate k 48 ++ l) = parseHexNatAux 0 l := by
  induction k with
  | zero => rfl
  | succ k ih => simpa [List.replicate_succ, parseHexNatAux, parseHexDigit] using ih

theorem parseHexNatAux_map (ds : List Nat) : ∀ a : Nat, (∀ d ∈ ds, d < 16) →
    parseHexNatAux a (ds.map hexChar) = some (ds.foldl (fun x d => 16 * x + d) a) := by
  induction ds with
  | nil => intro a _; rfl
  | cons d t ih =>
    intro a hall
    have hd : d < 16 := hall d (List.mem_cons_self _ _)
    simp only [List.map_cons, parseHexNatAux, parseHexDigit_hexChar d hd, List.foldl_cons]
    exact ih _ (fun x hx => hall x (List.mem_cons_of_mem _ hx))

theorem foldl_reverse_valHexLE (l : List Nat) :
    l.reverse.foldl (fun x d => 16 * x + d) 0 = valHexLE l := by
  rw [List.foldl_reverse]
  rfl

theorem hex04_length {n : Nat} (h : n ≤ 65535) : (hex04 n).length = 4 := by
  have hlen : (hexDigitsLE n).length ≤ 4 := hexDigitsLE_length_le 4 n (by norm_num; omega)
  simp only [hex04, List.length_append, List.length_replicate, List.length_map,
    List.length_reverse]
  omega

theorem parseHexNat_eq_aux {s : List Nat} (h : s ≠ []) :
    parseHexNat s = parseHexNatAux 0 s := by
  cases s with
  | nil => exact absurd rfl h
  | cons c t => rfl

theorem parseHexNat_hex04 {n : Nat} (h : n ≤ 65535) :
    parseHexNat (hex04 n) = some n := by
  have h4 : (hex04 n).length = 4 := hex04_length h
  have hne : hex04 n ≠ [] := by
    intro hcon
    rw [hcon] at h4
    simp at h4
  rw [parseHexNat_eq_aux hne]
  unfold hex04
  rw [parseHexNatAux_replicate]
  rw [parseHexNatAux_map _ 0 (by
    intro d hd
    rw [List.mem_reverse] at hd
    exact hexDigitsLE_lt n d hd)]
  rw [foldl_reverse_valHexLE, valHexLE_hexDigitsLE]

theorem hex04_mem_ge {n : Nat} : ∀ c ∈ hex04 n, 48 ≤ c := by
  intro c hc
  unfold hex04 at hc
  rcases List.mem_append.mp hc with h1 | h2
  · rw [List.eq_of_mem_replicate h1]
  · obtain ⟨d, hd, rfl⟩ := List.mem_map.mp h2
    rw [List.mem_reverse] at hd
    exact hexChar_ge d (hexDigitsLE_lt n d hd)

theorem parseHexInt_hex04 {n : Nat} (h : n ≤ 65535) :
    parseHexInt (hex04 n) = some (n : Int) := by
  have h4 : (hex04 n).length = 4 := hex04_length h
  cases hs : hex04 n with
  | nil => rw [hs] at h4; simp at h4
  | cons c rest =>
    have hge : 48 ≤ c := hex04_mem_ge c (by rw [hs]; exact List.mem_cons_self _ _)
    simp only [parseHexInt]
    rw [if_neg (by omega), if_neg (by omega), ← hs, parseHexNat_hex04 h]
    rfl

theorem goReadN_append {k : Nat} {l rest : List Nat} (hl : l.length = k) :
    goReadN k (l ++ rest) = ⟨l, rest, k, false⟩ := by
  subst hl
  unfold goReadN
  rw [if_neg]
  · simp only [List.take_left, List.drop_left, List.length_append]
    congr 1
    · rw [Nat.sub_eq_zero_of_le (by omega), List.replicate_zero, List.append_nil]
    · congr 1
      omega
  · rintro ⟨he, hpos⟩
    rcases List.append_eq_nil.mp (List.isEmpty_iff.mp he) with ⟨h1, h2⟩
    subst h1
    simp at hpos

theorem hexOfBytes_length (l : List Nat) : (hexOfBytes l).length = 2 * l.length := by
  induction l with
  | nil => rfl
  | cons b t ih =>
    simp only [hexOfBytes, List.length_cons, ih]
    omega

theorem sha1_length (m : List Nat) : (sha1 m).length = 20 := by
  simp [sha1, wordBE4]

/-! ### Claim theorems -/

/-- Claim C1: for every object kind K in blob, tree, commit and every byte
sequence B, the identifier computed and printed by HashObject and
prepareContent is the SHA-1 of the framed form of K and B (kind, space,
decimal length, NUL, B); in particular the blob content hello-newline is
framed as the bytes of blob 6, NUL, hello-newline and its printed
identifier is ce013625030ba8dba906f756967f9e9ca394464a. -/
theorem c1_hash_is_sha1_of_framed :
    (∀ (k : GoObjKind) (B : List Nat),
      (HashObject k B).1 = sha1 (kindTag k ++ [32] ++ decAscii B.length ++ [0] ++ B) ∧
      (prepareContent (kindTag k) B).1 =
        sha1 (kindTag k ++ [32] ++ decAscii B.length ++ [0] ++ B)) ∧
    (HashObject .blob (s2b "hello\n")).2 = s2b "blob 6" ++ [0] ++ s2b "hello\n" ∧
    hexOfBytes (HashObject .blob (s2b "hello\n")).1 =
      s2b "ce013625030ba8dba906f756967f9e9ca394464a" :=
  ⟨fun _ _ => ⟨rfl, rfl⟩, by decide, by decide⟩

/-- Claim C2 failing input: for the directory listing with a subdirectory
named a and a regular file named a.b, the tree builder emits the entry a
(the subdirectory) first, in plain byte-lexicographic os.ReadDir order,
not a.b first as the slash-appended sort rule would require. -/
theorem c2_subdir_a_emitted_before_file_ab :
    emittedTreeNames [.dir (s2b "a") [], .file (s2b "a.b") false (s2b "x")] =
      [s2b "a", s2b "a.b"] := by
  simp [emittedTreeNames, entryRecords, sortByName, insertByName, lexLtBytes,
    FSEntry.name, s2b]

/-- Claim C3 failing input: a copy instruction whose opcode byte 0x80 has
no size bits set assembles size 0; the applier emits 0 bytes from the base
(and succeeds against a declared target size of 0) instead of emitting
0x10000 bytes. -/
theorem c3_copy_size_zero_emits_nothing :
    parseRefDeltaData (s2b "hello world") [11, 0, 128] = .ok [] := by
  simp [parseRefDeltaData, readUvarint, deltaLoop, readCopyArgs, readMaskByte, s2b,
    show (128 &&& 128 : Nat) = 128 from rfl, show (128 &&& 1 : Nat) = 0 from rfl,
    show (128 &&& 2 : Nat) = 0 from rfl, show (128 &&& 4 : Nat) = 0 from rfl,
    show (128 &&& 8 : Nat) = 0 from rfl, show (128 &&& 16 : Nat) = 0 from rfl,
    show (128 &&& 32 : Nat) = 0 from rfl, show (128 &&& 64 : Nat) = 0 from rfl]

/-- Claim C4 failing input: a delta stream containing the reserved opcode
byte 0x00 is not rejected; the applier treats it as a zero-length literal
add and successfully produces the target. -/
theorem c4_opcode_zero_not_rejected :
    parseRefDeltaData (s2b "hello world") [11, 5, 0, 144, 5] =
      .ok (s2b "hello") := by
  simp [parseRefDeltaData, readUvarint, deltaLoop, readCopyArgs, readMaskByte, s2b,
    show (0 &&& 128 : Nat) = 0 from rfl, show (0 &&& 127 : Nat) = 0 from rfl,
    show (144 &&& 128 : Nat) = 128 from rfl, show (144 &&& 1 : Nat) = 0 from rfl,
    show (144 &&& 2 : Nat) = 0 from rfl, show (144 &&& 4 : Nat) = 0 from rfl,
    show (144 &&& 8 : Nat) = 0 from rfl, show (144 &&& 16 : Nat) = 16 from rfl,
    show (144 &&& 32 : Nat) = 0 from rfl, show (144 &&& 64 : Nat) = 0 from rfl,
    show (5 <<< 0 : Nat) = 5 from rfl, show (0 ||| 5 : Nat) = 5 from rfl]

/-- Claim C5 failing input: checking out a tree with a 100644 entry a
whose blob content is AB and a 100755 entry b whose blob content is XY
writes the files with the blob content truncated by its last byte and with
permission 0o644 = 420 for both entries (no executable bit for 100755). -/
theorem c5_checkout_truncates_and_fixed_mode :
    ParseTreeFromHash 2
      (fun h =>
        if h = s2b "t" then
          some (s2b "100644 a" ++ [0] ++ List.replicate 20 171 ++
                s2b "100755 b" ++ [0] ++ List.replicate 20 172)
        else if h = hexOfBytes (List.replicate 20 171) then some (s2b "AB")
        else if h = hexOfBytes (List.replicate 20 172) then some (s2b "XY")
        else none)
      [] (s2b "t") =
    .ok [.writeFile [s2b "a"] (s2b "A") 420,
         .writeFile [s2b "b"] (s2b "X") 420] := by
  simp [ParseTreeFromHash, checkoutEntries, toType, CoRes.withActs, hexOfBytes,
    hexChar, s2b, List.findIdx?, List.isPrefixOf]

/-- Claim C6 failing inputs: the tree parser reports no error: an entry
with the unknown mode 999999 is returned silently with empty mode and
kind fields, and an entry truncated after its name causes an out-of-range
slice panic (modelled as none) rather than an error. -/
theorem c6_tree_format_silent_and_panic :
    treeFormatLines (s2b "999999 x" ++ [0] ++ List.replicate 20 5) =
      some [⟨[], [], hexOfBytes (List.replicate 20 5), s2b "x"⟩] ∧
    treeFormatLines (s2b "100644 a" ++ [0] ++ [1, 2, 3]) = none := by
  constructor
  · simp [treeFormatLines, treeFormatLoop, spaceScan, nulScan, toType, hexOfBytes,
      hexChar, s2b, List.findIdx?, List.isPrefixOf]
  · simp [treeFormatLines, treeFormatLoop, spaceScan, nulScan, toType, hexOfBytes,
      hexChar, s2b, List.findIdx?, List.isPrefixOf]

/-- Claim C10: for the argument list consisting of exactly -w, the
hash-object handler passes the argument-count check (length 1 is within 1
to 2), sets the path index to 1, and indexes the argument slice out of
bounds (a runtime panic, modelled as the panic result); in particular it
does not return the usage error for invalid arguments. -/
theorem c10_hash_object_dash_w_panics :
    ∀ (fileBytes : String → Option (List Nat)) (store : StoreT),
      HandlerHashObject "hash-object" ["-w"] fileBytes store = .panic ∧
      HandlerHashObject "hash-object" ["-w"] fileBytes store ≠ .err := by
  intro fileBytes store
  constructor
  · rfl
  · intro hcon
    have h1 : HandlerHashObject "hash-object" ["-w"] fileBytes store = .panic := rfl
    rw [h1] at hcon
    exact HOResult.noConfusion hcon

/-- Claim C7: packet-line framing round-trips — for every payload p with
p.length + 4 at most 0xffff, parsing the serialized frame (4 hex digits of
length p + 4 followed by p) returns exactly the bytes of p with no error;
and a frame whose length field is 0000 parses to the flush marker rather
than a payload or an error. -/
theorem c7_packet_line_roundtrip_and_flush :
    (∀ p : List Nat, p.length + 4 ≤ 65535 →
      parsePacketLine (serializePackeLine p) = .payload p) ∧
    parsePacketLine (s2b "0000") = .flush := by
  constructor
  · intro p hp
    have h4 : (hex04 (p.length + 4)).length = 4 := hex04_length (by omega)
    have hg1 : goReadN 4 (hex04 (p.length + 4) ++ p) =
        ⟨hex04 (p.length + 4), p, 4, false⟩ := goReadN_append h4
    have hg2 : goReadN p.length p = ⟨p, [], p.length, false⟩ := by
      have h := @goReadN_append p.length p [] rfl
      rwa [List.append_nil] at h
    have hpi : parseHexInt (hex04 (p.length + 4)) =
        some ((p.length + 4 : Nat) : Int) := parseHexInt_hex04 (by omega)
    have hz : ¬(((p.length + 4 : Nat) : Int) = 0) := by omega
    have hlt : ¬(((p.length + 4 : Nat) : Int) < 4) := by omega
    have ht : (((p.length + 4 : Nat) : Int) - 4).toNat = p.length := by omega
    unfold serializePackeLine parsePacketLine
    rw [hg1]
    simp only [hpi, hz, hlt, ht, if_false, hg2]
    simp
  · decide

/-- Claim C8: every commit serialized by Commit.Content ends with a
newline written after the message unconditionally, and when no message is
supplied the serialized commit ends with two consecutive newline bytes. -/
theorem c8_commit_trailing_newline :
    (∀ (c : CommitObj) (m : List Nat), c.message = some m →
      ∃ pre, c.ContentBytes = pre ++ (m ++ [10])) ∧
    (∀ c : CommitObj, c.message = none →
      ∃ pre, c.ContentBytes = pre ++ [10, 10]) := by
  constructor
  · intro c m hm
    refine ⟨s2b "tree " ++ c.tree ++ [10] ++
      (match c.parent with
       | some p => s2b "parent " ++ p ++ [10]
       | none => []) ++
      s2b "author " ++ c.author ++ s2b " <" ++ c.email ++ s2b "> " ++
        c.timestampBytes ++ [10] ++
      s2b "committer " ++ c.author ++ s2b " <" ++ c.email ++ s2b "> " ++
        c.timestampBytes ++ [10, 10], ?_⟩
    simp [CommitObj.ContentBytes, hm, List.append_assoc]
  · intro c hm
    refine ⟨s2b "tree " ++ c.tree ++ [10] ++
      (match c.parent with
       | some p => s2b "parent " ++ p ++ [10]
       | none => []) ++
      s2b "author " ++ c.author ++ s2b " <" ++ c.email ++ s2b "> " ++
        c.timestampBytes ++ [10] ++
      s2b "committer " ++ c.author ++ s2b " <" ++ c.email ++ s2b "> " ++
        c.timestampBytes ++ [10], ?_⟩
    simp [CommitObj.ContentBytes, hm, List.append_assoc]

/-- Witness for C7: the concrete payload done-newline round-trips. -/
theorem c7_packet_line_roundtrip_witness :
    (s2b "done\n").length + 4 ≤ 65535 ∧
    parsePacketLine (serializePackeLine (s2b "done\n")) =
      .payload (s2b "done\n") :=
  ⟨by decide, c7_packet_line_roundtrip_and_flush.1 (s2b "done\n") (by decide)⟩

/-- Witness for C8: concrete commits with and without a message. -/
theorem c8_commit_trailing_newline_witness :
    (∃ pre, (CommitObj.mk (s2b "0 +0000") none (s2b "T") (s2b "A") (s2b "E")
        (some (s2b "m"))).ContentBytes = pre ++ (s2b "m" ++ [10])) ∧
    (∃ pre, (CommitObj.mk (s2b "0 +0000") none (s2b "T") (s2b "A") (s2b "E")
        none).ContentBytes = pre ++ [10, 10]) :=
  ⟨c8_commit_trailing_newline.1 _ _ rfl, c8_commit_trailing_newline.2 _ rfl⟩

/-- Claim C9: running hash-object on a readable file without the -w flag
prints the 40 hex digits of the blob identifier followed by a newline and
leaves the object store unchanged; only with -w is the framed object
written to the store (through the spec-modelled WriteContent put). The
path is assumed distinct from the literal -w, which the argument parser
would treat as the flag. -/
theorem c9_hash_object_store_effect :
    ∀ (path : String) (content : List Nat)
      (fileBytes : String → Option (List Nat)) (store : StoreT),
      path ≠ "-w" →
      fileBytes path = some content →
      HandlerHashObject "hash-object" [path] fileBytes store =
        .ok (hexOfBytes (HashObject .blob content).1 ++ [10]) store ∧
      (hexOfBytes (HashObject .blob content).1).length = 40 ∧
      HandlerHashObject "hash-object" ["-w", path] fileBytes store =
        .ok (hexOfBytes (HashObject .blob content).1 ++ [10])
          (storePut store (hexOfBytes (HashObject .blob content).1)
            (HashObject .blob content).2) := by
  intro path content fileBytes store hpw hfb
  refine ⟨?_, ?_, ?_⟩
  · simp [HandlerHashObject, hpw, hfb]
  · rw [hexOfBytes_length]
    show 2 * (sha1 _).length = 40
    rw [sha1_length]
  · simp [HandlerHashObject, hfb]

/-- Witness for C9: hashing the one-byte file f over the empty store. -/
theorem c9_hash_object_store_effect_witness :
    ((fun s => if s = "f" then some [65] else none) "f" = some [65]) ∧
    HandlerHashObject "hash-object" ["f"]
        (fun s => if s = "f" then some [65] else none) [] =
      .ok (hexOfBytes (HashObject .blob [65]).1 ++ [10]) [] ∧
    HandlerHashObject "hash-object" ["-w", "f"]
        (fun s => if s = "f" then some [65] else none) [] =
      .ok (hexOfBytes (HashObject .blob [65]).1 ++ [10])
        (storePut [] (hexOfBytes (HashObject .blob [65]).1)
          (HashObject .blob [65]).2) := by
  have h := c9_hash_object_store_effect "f" [65]
    (fun s => if s = "f" then some [65] else none) [] (by decide) (by simp)
  exact ⟨by simp, h.1, h.2.2⟩
